import Mathlib

/-!
Verification of the mezvaro middleware-chain library.

The Go sources ("context.go", "mezvaro.go") are shallowly embedded below.
Transport objects ("http.ResponseWriter", "*http.Request") are modelled by
their identities as natural numbers; the bodies of user-supplied handlers
are deep-embedded as small programs ("HProg") whose only operations are the
ones the library exposes ("c.Next()", "c.Abort()", replacing the transport
objects, pushing a value into the nested net-context scope) plus an
observable effect ("emit", modelling the counters the library tests use).
Foreign decorator middleware ("func(http.Handler) http.Handler") is
modelled by the behaviour of its outer sink: a function from the two
transport objects it is invoked with to a finite program ("GoProg") that
may call the inner sink with chosen transport objects.  Handler execution
is given by a fuel-indexed interpreter; "none" means the fuel ran out (or
the Go program would panic on an out-of-range chain index), "some c" is
the context state after the call returns.
-/

/-- Body of a native handler function: a finite sequence of the operations
a Go "func(*Context)" body can perform against the shared context. -/
inductive HProg where
  | ret : HProg
  | emit (t : Nat) (k : HProg) : HProg
  | nextOp (k : HProg) : HProg
  | abortOp (k : HProg) : HProg
  | setResp (w : Nat) (k : HProg) : HProg
  | setReq (r : Nat) (k : HProg) : HProg
  | withValue (key v : Nat) (k : HProg) : HProg
deriving DecidableEq

/-- Behaviour of the outer sink produced by a decorator middleware once it
is invoked: a finite sequence of calls to the inner sink, each with the
response/request objects of the decorator's choosing, then return. -/
inductive GoProg where
  | ret : GoProg
  | callInner (w r : Nat) (k : GoProg) : GoProg
deriving DecidableEq

/-- A value of the library's "Handler" interface: either a native
"HandlerFunc" with a deep-embedded body, or the handler produced by
"WrapHandlerMiddleware" from a decorator-convention middleware.  The
middleware itself is modelled by the function taking the transport objects
its outer sink receives to that sink's behaviour. -/
inductive Handler where
  | prog (p : HProg) : Handler
  | mwH (mw : Nat → Nat → GoProg) : Handler

/-- MaxHandlers number of handlers supported; used only as the marker for
aborting the middleware chain (Go: "int(math.MaxInt16)"). -/
def MaxHandlers : Int := 32767

/-- The shared per-request execution context (Go struct "Context"):
transport response and request object identities, the captured handler
chain, the integer cursor, the read-only URL parameters, the accumulated
net-context value scope ("netCtx" layers added by "WithValue"), and the
log of observable handler effects. -/
structure Context where
  Response : Nat
  Request : Nat
  handlerChain : List Handler
  index : Int
  urlParams : List (Nat × Nat)
  netScope : List (Nat × Nat)
  log : List Nat

/-- Go "newContext": fresh context with cursor at -1 (before start) and a
background net-context. -/
def newContext (w r : Nat) (handlerChain : List Handler)
    (urlParams : List (Nat × Nat)) : Context :=
  { Response := w, Request := r, handlerChain := handlerChain, index := -1,
    urlParams := urlParams, netScope := [], log := [] }

/-- Go "Context.Abort": set the cursor to the reserved sentinel. -/
def Context.Abort (c : Context) : Context :=
  { c with index := MaxHandlers }

/-- Go "Context.IsAborted": whether the cursor is at or past the sentinel. -/
def Context.IsAborted (c : Context) : Bool :=
  decide (MaxHandlers ≤ c.index)

mutual

/-- Runs the body of a native handler function against the context. -/
def stepProg : Nat → HProg → Context → Option Context
  | 0, _, _ => none
  | _ + 1, HProg.ret, c => some c
  | fuel + 1, HProg.emit t k, c => stepProg fuel k { c with log := c.log ++ [t] }
  | fuel + 1, HProg.nextOp k, c =>
      (stepNext fuel c).bind fun c1 => stepProg fuel k c1
  | fuel + 1, HProg.abortOp k, c => stepProg fuel k (Context.Abort c)
  | fuel + 1, HProg.setResp w k, c => stepProg fuel k { c with Response := w }
  | fuel + 1, HProg.setReq r k, c => stepProg fuel k { c with Request := r }
  | fuel + 1, HProg.withValue key v k, c =>
      stepProg fuel k { c with netScope := c.netScope ++ [(key, v)] }

/-- Runs the outer sink of a decorator middleware.  Each call of the inner
sink marks the "calledNext" flag, stores the transport objects the inner
sink was invoked with into the context, and invokes the continuation
(Go: the closure built inside "WrapHandlerMiddleware"). -/
def stepGo : Nat → GoProg → Bool → Context → Option (Context × Bool)
  | 0, _, _, _ => none
  | _ + 1, GoProg.ret, called, c => some (c, called)
  | fuel + 1, GoProg.callInner w r k, _, c =>
      (stepNext fuel { c with Response := w, Request := r }).bind
        fun c1 => stepGo fuel k true c1

/-- Invokes one handler (Go: "Handler.Handle").  For a wrapped decorator
middleware this runs the outer sink with the context's current transport
objects and, if the inner sink was never called, aborts the chain. -/
def stepHandle : Nat → Handler → Context → Option Context
  | 0, _, _ => none
  | fuel + 1, Handler.prog p, c => stepProg fuel p c
  | fuel + 1, Handler.mwH mw, c =>
      (stepGo fuel (mw c.Response c.Request) false c).map
        fun r => if r.2 then r.1 else Context.Abort r.1

/-- Go "Context.Next": increment the cursor, capture the chain length
once, then loop invoking handlers while the cursor is in bounds. -/
def stepNext : Nat → Context → Option Context
  | 0, _ => none
  | fuel + 1, c =>
      let c1 := { c with index := c.index + 1 }
      stepLoop fuel c1.handlerChain.length c1

/-- The driver loop of "Context.Next": while the cursor is below the
captured length "s", invoke the handler at the cursor (a negative or
out-of-range cursor would panic in Go, modelled by "none"), then
increment the cursor and continue. -/
def stepLoop : Nat → Nat → Context → Option Context
  | 0, _, _ => none
  | fuel + 1, s, c =>
      if c.index < (s : Int) then
        if 0 ≤ c.index then
          (c.handlerChain[c.index.toNat]?).bind fun h =>
            (stepHandle fuel h c).bind
              fun c1 => stepLoop fuel s { c1 with index := c1.index + 1 }
        else none
      else some c

end

/-- Go "HandlerFunc": a function body used directly as a Handler. -/
def HandlerFunc (p : HProg) : Handler := Handler.prog p

/-- Go "WrapHandlerMiddleware": adapt a decorator-convention middleware
into a Handler (its runtime behaviour is "stepHandle" on "Handler.mwH"). -/
def WrapHandlerMiddleware (mw : Nat → Nat → GoProg) : Handler :=
  Handler.mwH mw

/-- Go struct "Mezvaro": an optional parent pipeline and an own ordered
handler list. -/
inductive Mezvaro where
  | mk (parent : Option Mezvaro) (handlerChain : List Handler) : Mezvaro

/-- The parent link of a pipeline. -/
def Mezvaro.parent : Mezvaro → Option Mezvaro
  | Mezvaro.mk p _ => p

/-- The own handler list of a pipeline. -/
def Mezvaro.handlerChain : Mezvaro → List Handler
  | Mezvaro.mk _ hs => hs

/-- Go "New": fresh pipeline with the given handlers and no parent. -/
def New (handlers : List Handler) : Mezvaro :=
  Mezvaro.mk none handlers

/-- Go "Mezvaro.Fork": new pipeline whose parent is the receiver and whose
own list is exactly the provided handlers; the receiver is not written to. -/
def Fork (m : Mezvaro) (handlers : List Handler) : Mezvaro :=
  Mezvaro.mk (some m) handlers

/-- The walk in Go "wholeChain" collecting the pipeline and all its
ancestors, nearest first. -/
def parentsOf : Mezvaro → List Mezvaro
  | Mezvaro.mk none hs => [Mezvaro.mk none hs]
  | Mezvaro.mk (some p) hs => Mezvaro.mk (some p) hs :: parentsOf p

/-- Go "Mezvaro.wholeChain": traverse the collected ancestors in reverse
order, appending each pipeline's own handler list. -/
def wholeChain (m : Mezvaro) : List Handler :=
  (parentsOf m).reverse.foldl (fun acc q => acc ++ q.handlerChain) []

/-- Modelled from the spec's words for "Resolve()" (refinement reference):
the resolved chain is the parent's resolved chain followed by the own
handlers, oldest ancestor first. -/
def specResolve : Mezvaro → List Handler
  | Mezvaro.mk none hs => hs
  | Mezvaro.mk (some p) hs => specResolve p ++ hs

/-- Go "Mezvaro.Handle" (a pipeline used as a nested handler): reuse the
provided context, rebind its chain to this pipeline's resolved chain,
reset the cursor to before start, and drive it. -/
def Mezvaro.Handle (m : Mezvaro) (fuel : Nat) (c : Context) : Option Context :=
  stepNext fuel { c with handlerChain := wholeChain m, index := -1 }

/-- The default URL-parameter extractor (Go "defaultURLParamsExtractor",
the process-wide default): no parameters. -/
def urlParamsExtractor (_ : Nat) : List (Nat × Nat) := []

/-- Go "Mezvaro.H": flatten the whole chain once, append the terminal
handler, and return the reusable entry point. -/
def Mezvaro.H (m : Mezvaro) (h : Handler) : Nat → Nat → Nat → Option Context :=
  let wc := wholeChain m ++ [h]
  fun fuel w r => stepNext fuel (newContext w r wc (urlParamsExtractor r))

/-- Go "Mezvaro.ServeHTTP": resolve the whole chain on this request,
create a fresh context, and drive it. -/
def Mezvaro.ServeHTTP (m : Mezvaro) (fuel : Nat) (w r : Nat) : Option Context :=
  stepNext fuel (newContext w r (wholeChain m) (urlParamsExtractor r))

/-- A handler body is pure when it never calls the continuation and never
aborts: it only performs state effects and returns. -/
def HProg.isPure : HProg → Bool
  | HProg.ret => true
  | HProg.emit _ k => k.isPure
  | HProg.nextOp _ => false
  | HProg.abortOp _ => false
  | HProg.setResp _ k => k.isPure
  | HProg.setReq _ k => k.isPure
  | HProg.withValue _ _ k => k.isPure

/-- Denotation of a handler body restricted to its state effects (the
cursor-moving operations are skipped; on pure bodies this agrees with the
interpreter). -/
def applyPure : HProg → Context → Context
  | HProg.ret, c => c
  | HProg.emit t k, c => applyPure k { c with log := c.log ++ [t] }
  | HProg.nextOp k, c => applyPure k c
  | HProg.abortOp k, c => applyPure k c
  | HProg.setResp w k, c => applyPure k { c with Response := w }
  | HProg.setReq r k, c => applyPure k { c with Request := r }
  | HProg.withValue key v k, c =>
      applyPure k { c with netScope := c.netScope ++ [(key, v)] }

/-- Sequential denotation of a list of handler bodies. -/
def runPures (ps : List HProg) (c : Context) : Context :=
  ps.foldl (fun c p => applyPure p c) c

/-- Number of operations in a handler body. -/
def HProg.size : HProg → Nat
  | HProg.ret => 0
  | HProg.emit _ k => k.size + 1
  | HProg.nextOp k => k.size + 1
  | HProg.abortOp k => k.size + 1
  | HProg.setResp _ k => k.size + 1
  | HProg.setReq _ k => k.size + 1
  | HProg.withValue _ _ k => k.size + 1

/-- Fuel sufficient to drive a chain of handler bodies. -/
def chainFuel : List HProg → Nat
  | [] => 1
  | p :: ps => p.size + 2 + chainFuel ps

theorem chainFuel_pos (ps : List HProg) : 1 ≤ chainFuel ps := by
  cases ps with
  | nil => simp [chainFuel]
  | cons p ps => simp [chainFuel]; omega

theorem applyPure_index (p : HProg) : ∀ c : Context, (applyPure p c).index = c.index := by
  induction p with
  | ret => intro c; rfl
  | emit t k ih => intro c; exact ih _
  | nextOp k ih => intro c; exact ih _
  | abortOp k ih => intro c; exact ih _
  | setResp w k ih => intro c; exact ih _
  | setReq r k ih => intro c; exact ih _
  | withValue key v k ih => intro c; exact ih _

theorem applyPure_chain (p : HProg) :
    ∀ c : Context, (applyPure p c).handlerChain = c.handlerChain := by
  induction p with
  | ret => intro c; rfl
  | emit t k ih => intro c; exact ih _
  | nextOp k ih => intro c; exact ih _
  | abortOp k ih => intro c; exact ih _
  | setResp w k ih => intro c; exact ih _
  | setReq r k ih => intro c; exact ih _
  | withValue key v k ih => intro c; exact ih _

theorem applyPure_setIndex (p : HProg) :
    ∀ (c : Context) (j : Int),
      applyPure p { c with index := j } = { applyPure p c with index := j } := by
  induction p with
  | ret => intro c j; rfl
  | emit t k ih => intro c j; exact ih { c with log := c.log ++ [t] } j
  | nextOp k ih => intro c j; exact ih c j
  | abortOp k ih => intro c j; exact ih c j
  | setResp w k ih => intro c j; exact ih { c with Response := w } j
  | setReq r k ih => intro c j; exact ih { c with Request := r } j
  | withValue key v k ih =>
    intro c j
    exact ih { c with netScope := c.netScope ++ [(key, v)] } j

theorem runPures_setIndex (ps : List HProg) :
    ∀ (c : Context) (j : Int),
      runPures ps { c with index := j } = { runPures ps c with index := j } := by
  induction ps with
  | nil => intro c j; rfl
  | cons p ps ih =>
    intro c j
    show runPures ps (applyPure p { c with index := j }) = _
    rw [applyPure_setIndex, ih]
    rfl

theorem stepProg_pure : ∀ (p : HProg) (fuel : Nat) (c : Context),
    p.isPure = true → p.size < fuel → stepProg fuel p c = some (applyPure p c) := by
  intro p
  induction p with
  | ret =>
    intro fuel c _ hf
    match fuel, hf with
    | f + 1, _ => rfl
  | emit t k ih =>
    intro fuel c hp hf
    match fuel, hf with
    | f + 1, hf =>
      simp only [HProg.isPure] at hp
      exact ih f _ hp (by simp only [HProg.size] at hf; omega)
  | nextOp k ih => intro fuel c hp _; simp [HProg.isPure] at hp
  | abortOp k ih => intro fuel c hp _; simp [HProg.isPure] at hp
  | setResp w k ih =>
    intro fuel c hp hf
    match fuel, hf with
    | f + 1, hf =>
      simp only [HProg.isPure] at hp
      exact ih f _ hp (by simp only [HProg.size] at hf; omega)
  | setReq r k ih =>
    intro fuel c hp hf
    match fuel, hf with
    | f + 1, hf =>
      simp only [HProg.isPure] at hp
      exact ih f _ hp (by simp only [HProg.size] at hf; omega)
  | withValue key v k ih =>
    intro fuel c hp hf
    match fuel, hf with
    | f + 1, hf =>
      simp only [HProg.isPure] at hp
      exact ih f _ hp (by simp only [HProg.size] at hf; omega)

theorem pureLoop : ∀ (rest : List HProg) (front : List Handler) (c : Context) (fuel : Nat),
    (∀ p ∈ rest, p.isPure = true) →
    c.handlerChain = front ++ rest.map Handler.prog →
    c.index = (front.length : Int) →
    chainFuel rest ≤ fuel →
    stepLoop fuel c.handlerChain.length c
      = some { runPures rest c with index := ((front.length + rest.length : Nat) : Int) } := by
  intro rest
  induction rest with
  | nil =>
    intro front c fuel _ hch hidx hfuel
    obtain ⟨f, rfl⟩ : ∃ f, fuel = f + 1 :=
      ⟨fuel - 1, by simp [chainFuel] at hfuel; omega⟩
    rw [stepLoop, if_neg]
    · have h0 : ((front.length + ([] : List HProg).length : Nat) : Int) = c.index := by
        simp [hidx]
      rw [h0]
      rfl
    · rw [hch, hidx]
      simp
  | cons p rest ih =>
    intro front c fuel hp hch hidx hfuel
    have hrest : chainFuel rest ≥ 1 := chainFuel_pos rest
    have hfc : chainFuel (p :: rest) = p.size + 2 + chainFuel rest := rfl
    obtain ⟨g, rfl⟩ : ∃ g, fuel = g + 2 := ⟨fuel - 2, by rw [hfc] at hfuel; omega⟩
    have hsz : p.size < g + 1 := by rw [hfc] at hfuel; omega
    have hfg : chainFuel rest ≤ g + 1 := by rw [hfc] at hfuel; omega
    have hlt : c.index < (c.handlerChain.length : Int) := by
      rw [hch, hidx]
      have : front.length < (front ++ Handler.prog p :: rest.map Handler.prog).length := by
        simp only [List.length_append, List.length_cons, List.length_map]
        omega
      exact_mod_cast this
    have hge : (0 : Int) ≤ c.index := by
      rw [hidx]
      exact Int.natCast_nonneg _
    have hget : c.handlerChain[c.index.toNat]? = some (Handler.prog p) := by
      rw [hch, hidx, Int.toNat_natCast,
        List.getElem?_append_right (le_refl front.length)]
      simp
    rw [stepLoop, if_pos hlt, if_pos hge]
    simp only [hget, Option.some_bind]
    have hrun : stepHandle (g + 1) (Handler.prog p) c = some (applyPure p c) := by
      show stepProg g p c = some (applyPure p c)
      exact stepProg_pure p g c (hp p (List.mem_cons_self p rest)) (by omega)
    rw [hrun]
    simp only [Option.some_bind]
    have hidx1 : (applyPure p c).index + 1 = ((front.length + 1 : Nat) : Int) := by
      rw [applyPure_index, hidx]
      push_cast
      ring
    have hch1 : ({ applyPure p c with index := (applyPure p c).index + 1 } :
        Context).handlerChain = (front ++ [Handler.prog p]) ++ rest.map Handler.prog := by
      show (applyPure p c).handlerChain = _
      rw [applyPure_chain, hch]
      simp
    have hidx2 : ({ applyPure p c with index := (applyPure p c).index + 1 } :
        Context).index = (((front ++ [Handler.prog p]).length : Nat) : Int) := by
      show (applyPure p c).index + 1 = _
      rw [hidx1]
      simp
    have := ih (front ++ [Handler.prog p])
      { applyPure p c with index := (applyPure p c).index + 1 } (g + 1)
      (fun q hq => hp q (List.mem_cons_of_mem p hq)) hch1 hidx2 hfg
    rw [show ({ applyPure p c with index := (applyPure p c).index + 1 } :
        Context).handlerChain.length = c.handlerChain.length by
      rw [hch1, hch]; simp] at this
    rw [this]
    have hrp : runPures rest
        ({ applyPure p c with index := (applyPure p c).index + 1 } : Context)
        = { runPures rest (applyPure p c) with index := (applyPure p c).index + 1 } := by
      have := runPures_setIndex rest (applyPure p c) ((applyPure p c).index + 1)
      calc runPures rest ({ applyPure p c with index := (applyPure p c).index + 1 } : Context)
          = runPures rest { (applyPure p c) with index := (applyPure p c).index + 1 } := rfl
        _ = _ := this
    rw [hrp]
    have hN : ((front ++ [Handler.prog p]).length + rest.length : Nat)
        = (front.length + (p :: rest).length : Nat) := by
      simp only [List.length_append, List.length_cons, List.length_map,
        List.length_nil]
      omega
    rw [hN]
    rfl

theorem pureNext (ps : List HProg) (c : Context) (fuel : Nat)
    (hp : ∀ p ∈ ps, p.isPure = true)
    (hch : c.handlerChain = ps.map Handler.prog)
    (hidx : c.index = -1)
    (hfuel : chainFuel ps + 1 ≤ fuel) :
    stepNext fuel c = some { runPures ps c with index := ((ps.length : Nat) : Int) } := by
  obtain ⟨f, rfl⟩ : ∃ f, fuel = f + 1 :=
    ⟨fuel - 1, by have := chainFuel_pos ps; omega⟩
  have h1 : stepNext (f + 1) c
      = stepLoop f c.handlerChain.length { c with index := c.index + 1 } := rfl
  rw [h1]
  have hch' : ({ c with index := c.index + 1 } : Context).handlerChain
      = [] ++ ps.map Handler.prog := by
    show c.handlerChain = _
    rw [hch]
    rfl
  have hidx' : ({ c with index := c.index + 1 } : Context).index
      = ((([] : List Handler).length : Nat) : Int) := by
    show c.index + 1 = _
    rw [hidx]
    rfl
  have h2 := pureLoop ps [] { c with index := c.index + 1 } f hp hch' hidx' (by omega)
  rw [show ({ c with index := c.index + 1 } : Context).handlerChain.length
      = c.handlerChain.length from rfl] at h2
  rw [h2, runPures_setIndex ps c (c.index + 1)]
  have h3 : ((([] : List Handler).length + ps.length : Nat) : Int)
      = ((ps.length : Nat) : Int) := by simp
  rw [h3]

theorem stepLoop_exit : ∀ (fuel s : Nat) (c c' : Context),
    stepLoop fuel s c = some c' → (s : Int) ≤ c'.index := by
  intro fuel
  induction fuel with
  | zero => intro s c c' h; simp [stepLoop] at h
  | succ f ih =>
    intro s c c' h
    rw [stepLoop] at h
    by_cases h1 : c.index < (s : Int)
    · rw [if_pos h1] at h
      by_cases h2 : (0 : Int) ≤ c.index
      · rw [if_pos h2] at h
        cases hget : c.handlerChain[c.index.toNat]? with
        | none => rw [hget] at h; simp at h
        | some hd =>
          rw [hget] at h
          simp only [Option.some_bind] at h
          cases hh : stepHandle f hd c with
          | none => rw [hh] at h; simp at h
          | some c1 =>
            rw [hh] at h
            simp only [Option.some_bind] at h
            exact ih s _ c' h
      · rw [if_neg h2] at h; simp at h
    · rw [if_neg h1] at h
      have h3 : c = c' := by injection h
      rw [← h3]
      omega

theorem stepNext_lt : ∀ (fuel : Nat) (c c' : Context),
    stepNext fuel c = some c' → c.index < c'.index := by
  intro fuel c c' h
  match fuel with
  | 0 => simp [stepNext] at h
  | f + 1 =>
    rw [show stepNext (f + 1) c
        = stepLoop f c.handlerChain.length { c with index := c.index + 1 } from rfl] at h
    match f with
    | 0 => simp [stepLoop] at h
    | g + 1 =>
      rw [stepLoop] at h
      by_cases hc : ({ c with index := c.index + 1 } : Context).index
          < (c.handlerChain.length : Int)
      · rw [if_pos hc] at h
        have hc2 : c.index + 1 < (c.handlerChain.length : Int) := hc
        by_cases h2 : (0 : Int) ≤ ({ c with index := c.index + 1 } : Context).index
        · rw [if_pos h2] at h
          cases hget : ({ c with index := c.index + 1 } :
              Context).handlerChain[({ c with index := c.index + 1 } :
              Context).index.toNat]? with
          | none => rw [hget] at h; simp at h
          | some hd =>
            rw [hget] at h
            simp only [Option.some_bind] at h
            cases hh : stepHandle g hd { c with index := c.index + 1 } with
            | none => rw [hh] at h; simp at h
            | some c2 =>
              rw [hh] at h
              simp only [Option.some_bind] at h
              have hex := stepLoop_exit g c.handlerChain.length
                { c2 with index := c2.index + 1 } c' h
              omega
        · rw [if_neg h2] at h; simp at h
      · rw [if_neg hc] at h
        have h3 : ({ c with index := c.index + 1 } : Context) = c' := by injection h
        have h4 : c'.index = c.index + 1 := by rw [← h3]
        omega

theorem wholeChain_eq : (m : Mezvaro) → wholeChain m = specResolve m
  | Mezvaro.mk none hs => by
    simp [wholeChain, parentsOf, specResolve, Mezvaro.handlerChain]
  | Mezvaro.mk (some p) hs => by
    have ih := wholeChain_eq p
    simp only [wholeChain, parentsOf, specResolve, List.reverse_cons,
      List.foldl_append] at *
    rw [ih]
    simp [Mezvaro.handlerChain]

theorem wholeChain_fork (m : Mezvaro) (hs : List Handler) :
    wholeChain (Fork m hs) = wholeChain m ++ hs := by
  rw [wholeChain_eq, wholeChain_eq]
  cases m with
  | mk p own => rfl

/-- C1: Resolving a pipeline (Go "wholeChain") yields the concatenation of
the own handler lists of the pipeline and all its ancestors in
ancestor-to-descendant (oldest first) order, exactly as the spec words it
("specResolve"); in particular a pipeline with own handlers [a, b] forked
into a child with own handlers [cc, d] resolves to [a, b, cc, d]. -/
theorem resolve_is_ancestor_chain :
    (∀ m : Mezvaro, wholeChain m = specResolve m)
    ∧ ∀ a b cc d : Handler,
        wholeChain (Fork (New [a, b]) [cc, d]) = [a, b, cc, d] := by
  refine ⟨wholeChain_eq, ?_⟩
  intro a b cc d
  rw [wholeChain_eq]
  rfl

/-- C5: Go "Fork" returns a new pipeline whose parent link is the receiver
itself (shared, not copied) and whose own handler list is exactly the
provided handlers; the embedding of "Fork" is a pure constructor that
performs no write through the receiver, so the receiver's own list and
parent link are untouched, and the fork resolves to the receiver's
resolved chain followed by the new handlers. -/
theorem fork_does_not_mutate_parent (m : Mezvaro) (hs : List Handler) :
    (Fork m hs).parent = some m
    ∧ (Fork m hs).handlerChain = hs
    ∧ wholeChain (Fork m hs) = wholeChain m ++ hs :=
  ⟨rfl, rfl, wholeChain_fork m hs⟩

/-- C9: The precompiled entry point (Go "H": chain flattened once at setup
with the terminal handler appended) is behaviorally identical, for every
fuel budget and request, to per-request resolution of a pipeline whose
last handler is that terminal handler (a fork carrying exactly it),
served through "ServeHTTP". -/
theorem precompiled_entry_matches_per_request (m : Mezvaro) (h : Handler)
    (fuel w r : Nat) :
    Mezvaro.H m h fuel w r = Mezvaro.ServeHTTP (Fork m [h]) fuel w r := by
  show stepNext fuel (newContext w r (wholeChain m ++ [h]) (urlParamsExtractor r))
      = stepNext fuel (newContext w r (wholeChain (Fork m [h])) (urlParamsExtractor r))
  rw [wholeChain_fork]

/-- C2: Driving a non-empty chain once (one "Next" call on a context whose
cursor is before start) invokes every handler exactly once, in order, even
though none of the handler bodies ever calls the continuation or aborts:
the resulting context is the sequential composition of all the handler
bodies applied once each in chain order, with the cursor moved to the
chain length. -/
theorem one_drive_runs_whole_chain (ps : List HProg) (c : Context) (fuel : Nat)
    (hne : ps ≠ [])
    (hp : ∀ p ∈ ps, p.isPure = true)
    (hch : c.handlerChain = ps.map Handler.prog)
    (hidx : c.index = -1)
    (hfuel : chainFuel ps + 1 ≤ fuel) :
    stepNext fuel c
      = some { runPures ps c with index := ((ps.length : Nat) : Int) } :=
  pureNext ps c fuel hp hch hidx hfuel

/-- Concrete context for the C2 witness: two counter handlers. -/
def cW2 : Context :=
  ⟨0, 0, [Handler.prog (HProg.emit 1 HProg.ret),
    Handler.prog (HProg.emit 2 HProg.ret)], -1, [], [], []⟩

/-- Witness for C2 at a concrete two-handler chain. -/
theorem one_drive_runs_whole_chain_witness :
    ([HProg.emit 1 HProg.ret, HProg.emit 2 HProg.ret] ≠ ([] : List HProg))
    ∧ stepNext 8 cW2
      = some { runPures [HProg.emit 1 HProg.ret, HProg.emit 2 HProg.ret] cW2
          with index := ((([HProg.emit 1 HProg.ret, HProg.emit 2 HProg.ret] :
            List HProg).length : Nat) : Int) } :=
  ⟨by decide,
    one_drive_runs_whole_chain
      [HProg.emit 1 HProg.ret, HProg.emit 2 HProg.ret] cW2 8
      (by decide) (by decide) rfl rfl (by decide)⟩

/-- C3: Abort halts the chain.  On an aborted context (and whenever the
captured bound and the chain length do not exceed the sentinel) the
driver loop returns immediately without invoking any handler; a "Next"
call on an aborted context merely increments the cursor — the full
context is otherwise unchanged, so no handler ran — and leaves the
context aborted; and a "Next" call on an exhausted context likewise
invokes no handler. -/
theorem abort_halts_chain (fuel s : Nat) (c : Context)
    (hs : (s : Int) ≤ MaxHandlers)
    (hlen : (c.handlerChain.length : Int) ≤ MaxHandlers) :
    (c.IsAborted = true → stepLoop (fuel + 1) s c = some c)
    ∧ (c.IsAborted = true →
        stepNext (fuel + 2) c = some { c with index := c.index + 1 }
        ∧ ({ c with index := c.index + 1 } : Context).IsAborted = true)
    ∧ ((c.handlerChain.length : Int) ≤ c.index →
        stepNext (fuel + 2) c = some { c with index := c.index + 1 }) := by
  have hab : c.IsAborted = true ↔ MaxHandlers ≤ c.index := by
    simp [Context.IsAborted]
  refine ⟨?_, ?_, ?_⟩
  · intro h
    rw [hab] at h
    rw [stepLoop, if_neg (by omega : ¬ c.index < (s : Int))]
  · intro h
    rw [hab] at h
    constructor
    · rw [show stepNext (fuel + 2) c
          = stepLoop (fuel + 1) c.handlerChain.length
              { c with index := c.index + 1 } from rfl]
      have hcond : ¬ (({ c with index := c.index + 1 } : Context).index
          < (c.handlerChain.length : Int)) := by
        show ¬ (c.index + 1 < (c.handlerChain.length : Int))
        omega
      rw [stepLoop, if_neg hcond]
    · simp only [Context.IsAborted, decide_eq_true_eq]
      show MaxHandlers ≤ c.index + 1
      omega
  · intro h
    rw [show stepNext (fuel + 2) c
        = stepLoop (fuel + 1) c.handlerChain.length
            { c with index := c.index + 1 } from rfl]
    have hcond : ¬ (({ c with index := c.index + 1 } : Context).index
        < (c.handlerChain.length : Int)) := by
      show ¬ (c.index + 1 < (c.handlerChain.length : Int))
      omega
    rw [stepLoop, if_neg hcond]

/-- Concrete aborted context for the C3 witness. -/
def cW3 : Context := ⟨1, 2, [], 32767, [], [], []⟩

/-- Witness for C3 at a concrete aborted context. -/
theorem abort_halts_chain_witness :
    cW3.IsAborted = true
    ∧ stepLoop 1 3 cW3 = some cW3
    ∧ stepNext 2 cW3 = some { cW3 with index := cW3.index + 1 } :=
  ⟨rfl, (abort_halts_chain 0 3 cW3 (by decide) (by decide)).1 rfl,
    ((abort_halts_chain 0 3 cW3 (by decide) (by decide)).2.1 rfl).1⟩

/-- C10: Invoking a pipeline as a nested handler (Go "Handle") on an
aborted context clears the aborted state: the rebound context (cursor
reset to before start) is not aborted, and when the pipeline's resolved
chain consists of handler bodies that neither continue nor abort, the
drive completes with the cursor at the chain length — below the sentinel
— so the context is no longer aborted afterwards. -/
theorem handle_clears_abort (m : Mezvaro) (c : Context) (ps : List HProg)
    (fuel : Nat)
    (habort : c.IsAborted = true)
    (hwc : wholeChain m = ps.map Handler.prog)
    (hp : ∀ p ∈ ps, p.isPure = true)
    (hlen : ((ps.length : Nat) : Int) < MaxHandlers)
    (hfuel : chainFuel ps + 1 ≤ fuel) :
    ({ c with handlerChain := wholeChain m, index := -1 } : Context).IsAborted
      = false
    ∧ ∃ c', Mezvaro.Handle m fuel c = some c'
        ∧ c'.IsAborted = false ∧ c'.index = ((ps.length : Nat) : Int) := by
  refine ⟨rfl, ?_⟩
  refine ⟨{ runPures ps { c with handlerChain := wholeChain m, index := -1 }
      with index := ((ps.length : Nat) : Int) }, ?_, ?_, rfl⟩
  · show stepNext fuel { c with handlerChain := wholeChain m, index := -1 } = _
    exact pureNext ps _ fuel hp (by show wholeChain m = _; exact hwc) rfl hfuel
  · simp only [Context.IsAborted]
    rw [decide_eq_false_iff_not]
    show ¬ MaxHandlers ≤ ((ps.length : Nat) : Int)
    exact not_le.mpr hlen

/-- Concrete pipeline for the C10 witness. -/
def mW10 : Mezvaro := New [Handler.prog (HProg.emit 5 HProg.ret)]

/-- Concrete aborted context for the C10 witness. -/
def cW10 : Context := ⟨3, 4, [], 32767, [], [(8, 8)], [9]⟩

/-- Witness for C10 at a concrete aborted context and one-handler pipeline. -/
theorem handle_clears_abort_witness :
    cW10.IsAborted = true
    ∧ (({ cW10 with handlerChain := wholeChain mW10, index := -1 } :
          Context).IsAborted = false
      ∧ ∃ c', Mezvaro.Handle mW10 5 cW10 = some c'
          ∧ c'.IsAborted = false
          ∧ c'.index = ((([HProg.emit 5 HProg.ret] : List HProg).length : Nat) : Int)) :=
  ⟨rfl, handle_clears_abort mW10 cW10 [HProg.emit 5 HProg.ret] 5 rfl
    (by simp [mW10, New, wholeChain, parentsOf, Mezvaro.handlerChain])
    (by decide) (by decide) (by decide)⟩

/-- C4 (amended): during a pass of the driver, a completed "Next" strictly
increases the cursor, and "Abort" does not decrease it provided the cursor
has not yet moved strictly past the sentinel; once the context is aborted
the cursor is at least the sentinel "MaxHandlers" and stays at least the
sentinel under both "Abort" and any completed "Next".  (The unconditional
monotonicity of the original claim fails: "Abort" from a cursor strictly
above the sentinel, reachable by calling the continuation after an abort
inside the same handler, moves the cursor back down to the sentinel.) -/
theorem cursor_monotone_amended :
    (∀ (fuel : Nat) (c c' : Context), stepNext fuel c = some c' →
        c.index < c'.index)
    ∧ (∀ c : Context, c.index ≤ MaxHandlers → c.index ≤ (Context.Abort c).index)
    ∧ (∀ c : Context, c.IsAborted = true →
        MaxHandlers ≤ (Context.Abort c).index
        ∧ ∀ (fuel : Nat) (c' : Context), stepNext fuel c = some c' →
            MaxHandlers ≤ c'.index) := by
  refine ⟨stepNext_lt, ?_, ?_⟩
  · intro c h
    exact h
  · intro c h
    have hc : MaxHandlers ≤ c.index := by
      simpa [Context.IsAborted] using h
    refine ⟨le_refl MaxHandlers, ?_⟩
    intro fuel c' hn
    have := stepNext_lt fuel c c' hn
    omega

/-- The context a driver hands to the sole handler of the chain
"[Abort; Next; Abort]": cursor at position 0, fresh otherwise. -/
def c4start : Context :=
  ⟨0, 0, [Handler.prog (HProg.abortOp (HProg.nextOp (HProg.abortOp HProg.ret)))],
    0, [], [], []⟩

/-- C4 counterexample: running the prefix "Abort; Next" of the handler
body leaves the cursor at MaxHandlers + 1 — a state reached mid-pass —
and the "Abort" operation applied there strictly DECREASES the cursor
back to the sentinel, as the run of the full body confirms; this refutes
"the cursor only increases monotonically under every operation (Next and
Abort)". -/
theorem cursor_monotone_counterexample :
    stepProg 4 (HProg.abortOp (HProg.nextOp HProg.ret)) c4start
      = some { c4start with index := MaxHandlers + 1 }
    ∧ stepProg 4 (HProg.abortOp (HProg.nextOp (HProg.abortOp HProg.ret))) c4start
      = some { c4start with index := MaxHandlers }
    ∧ (Context.Abort { c4start with index := MaxHandlers + 1 }).index
        < ({ c4start with index := MaxHandlers + 1 } : Context).index :=
  ⟨rfl, rfl, by decide⟩

/-- Witness for the amended C4 at a concrete context whose cursor is not
past the sentinel. -/
theorem cursor_monotone_witness :
    c4start.index ≤ MaxHandlers ∧ c4start.index ≤ (Context.Abort c4start).index :=
  ⟨by decide, cursor_monotone_amended.2.1 c4start (by decide)⟩

/-- C6: A pipeline invoked as a nested handler (Go "Handle") reuses the
provided context rather than creating a new one: the drive happens on the
very same context with only the chain rebound to the pipeline's resolved
chain and the cursor reset to before start; its response, request, URL
parameters, accumulated net-context scope and log are all unchanged at
the point the drive starts. -/
theorem handle_reuses_context (m : Mezvaro) (c : Context) (fuel : Nat) :
    Mezvaro.Handle m fuel c
      = stepNext fuel { c with handlerChain := wholeChain m, index := -1 }
    ∧ ({ c with handlerChain := wholeChain m, index := -1 } : Context).Response
        = c.Response
    ∧ ({ c with handlerChain := wholeChain m, index := -1 } : Context).Request
        = c.Request
    ∧ ({ c with handlerChain := wholeChain m, index := -1 } : Context).netScope
        = c.netScope
    ∧ ({ c with handlerChain := wholeChain m, index := -1 } : Context).urlParams
        = c.urlParams
    ∧ ({ c with handlerChain := wholeChain m, index := -1 } : Context).log
        = c.log
    ∧ ({ c with handlerChain := wholeChain m, index := -1 } : Context).index
        = -1
    ∧ ({ c with handlerChain := wholeChain m, index := -1 } : Context).handlerChain
        = wholeChain m :=
  ⟨rfl, rfl, rfl, rfl, rfl, rfl, rfl, rfl⟩

/-- C7: A decorator middleware whose outer sink returns without ever
invoking its inner sink aborts the chain: the adapted handler returns the
aborted input context, and one drive of a chain that starts with this
handler ends with only the cursor changed — moved past the sentinel — so
the downstream handler is never invoked and the context reports aborted. -/
theorem decorator_no_call_aborts (mw : Nat → Nat → GoProg) (c : Context)
    (h2 : Handler) (fuel : Nat)
    (hmw : mw c.Response c.Request = GoProg.ret)
    (hch : c.handlerChain = [WrapHandlerMiddleware mw, h2])
    (hidx : c.index = -1) :
    stepHandle (fuel + 2) (WrapHandlerMiddleware mw) c = some (Context.Abort c)
    ∧ (Context.Abort c).IsAborted = true
    ∧ stepNext (fuel + 4) c = some { c with index := MaxHandlers + 1 }
    ∧ ({ c with index := MaxHandlers + 1 } : Context).IsAborted = true := by
  obtain ⟨resp, req, ch, idx, up, sc, lg⟩ := c
  simp only at hmw hch hidx
  subst hch hidx
  refine ⟨?_, rfl, ?_, rfl⟩
  · show Option.map (fun r => if r.2 then r.1 else Context.Abort r.1)
        (stepGo (fuel + 1) (mw resp req) false
          (⟨resp, req, [WrapHandlerMiddleware mw, h2], -1, up, sc, lg⟩ : Context))
      = some (Context.Abort
          (⟨resp, req, [WrapHandlerMiddleware mw, h2], -1, up, sc, lg⟩ : Context))
    rw [hmw]
    rfl
  · show (Option.map (fun r => if r.2 then r.1 else Context.Abort r.1)
        (stepGo (fuel + 1) (mw resp req) false
          (⟨resp, req, [WrapHandlerMiddleware mw, h2], 0, up, sc, lg⟩ : Context))).bind
          (fun c1 => stepLoop (fuel + 2) 2 { c1 with index := c1.index + 1 })
      = some
          (⟨resp, req, [WrapHandlerMiddleware mw, h2], MaxHandlers + 1, up, sc,
            lg⟩ : Context)
    rw [hmw]
    rfl

/-- Decorator for the C7 witness: never calls its inner sink. -/
def mwW7 : Nat → Nat → GoProg := fun _ _ => GoProg.ret

/-- Concrete context for the C7 witness. -/
def cW7 : Context :=
  ⟨5, 7, [WrapHandlerMiddleware mwW7, Handler.prog (HProg.emit 9 HProg.ret)],
    -1, [], [], []⟩

/-- Witness for C7 at a concrete decorator that never calls its inner sink. -/
theorem decorator_no_call_aborts_witness :
    mwW7 cW7.Response cW7.Request = GoProg.ret
    ∧ stepNext 4 cW7 = some { cW7 with index := MaxHandlers + 1 } :=
  ⟨rfl, (decorator_no_call_aborts mwW7 cW7
    (Handler.prog (HProg.emit 9 HProg.ret)) 0 rfl rfl rfl).2.2.1⟩

/-- C8: A decorator middleware that invokes its inner sink with transport
objects different from the ones it received causes the context's stored
response and request to be replaced by exactly those objects, observably
after the drive completes; the downstream handler still runs (its effect
is in the log) and the chain is not aborted. -/
theorem decorator_replaces_objects (mw : Nat → Nat → GoProg) (c : Context)
    (w' r' t : Nat) (fuel : Nat)
    (hmw : mw c.Response c.Request = GoProg.callInner w' r' GoProg.ret)
    (hw : w' ≠ c.Response) (hr : r' ≠ c.Request)
    (hch : c.handlerChain
      = [WrapHandlerMiddleware mw, HandlerFunc (HProg.emit t HProg.ret)])
    (hidx : c.index = -1) :
    stepNext (fuel + 9) c
      = some
          { c with
              Response := w', Request := r', index := 3, log := c.log ++ [t] }
    ∧ ({ c with
          Response := w', Request := r', index := 3, log := c.log ++ [t] } :
            Context).IsAborted = false := by
  obtain ⟨resp, req, ch, idx, up, sc, lg⟩ := c
  simp only at hmw hch hidx
  subst hch hidx
  refine ⟨?_, rfl⟩
  have e3 : stepNext (fuel + 5)
      (⟨w', r', [WrapHandlerMiddleware mw, HandlerFunc (HProg.emit t HProg.ret)],
        0, up, sc, lg⟩ : Context)
      = some
          (⟨w', r', [WrapHandlerMiddleware mw,
            HandlerFunc (HProg.emit t HProg.ret)], 2, up, sc,
            lg ++ [t]⟩ : Context) := rfl
  show (Option.map (fun r => if r.2 then r.1 else Context.Abort r.1)
      (stepGo (fuel + 6) (mw resp req) false
        (⟨resp, req, [WrapHandlerMiddleware mw,
          HandlerFunc (HProg.emit t HProg.ret)], 0, up, sc, lg⟩ : Context))).bind
      (fun c1 => stepLoop (fuel + 7) 2 { c1 with index := c1.index + 1 })
    = some
        (⟨w', r', [WrapHandlerMiddleware mw,
          HandlerFunc (HProg.emit t HProg.ret)], 3, up, sc,
          lg ++ [t]⟩ : Context)
  rw [hmw]
  show (Option.map (fun r => if r.2 then r.1 else Context.Abort r.1)
      ((stepNext (fuel + 5)
        (⟨w', r', [WrapHandlerMiddleware mw,
          HandlerFunc (HProg.emit t HProg.ret)], 0, up, sc, lg⟩ : Context)).bind
        (fun c1 => stepGo (fuel + 5) GoProg.ret true c1))).bind
      (fun c1 => stepLoop (fuel + 7) 2 { c1 with index := c1.index + 1 })
    = _
  rw [e3]
  rfl

/-- Decorator for the C8 witness: calls its inner sink with the fresh
transport objects 100 and 200. -/
def mwW8 : Nat → Nat → GoProg := fun _ _ => GoProg.callInner 100 200 GoProg.ret

/-- Concrete context for the C8 witness. -/
def cW8 : Context :=
  ⟨5, 7, [WrapHandlerMiddleware mwW8, HandlerFunc (HProg.emit 3 HProg.ret)],
    -1, [], [], []⟩

/-- Witness for C8 at a concrete object-swapping decorator. -/
theorem decorator_replaces_objects_witness :
    mwW8 cW8.Response cW8.Request = GoProg.callInner 100 200 GoProg.ret
    ∧ stepNext 9 cW8
      = some
          { cW8 with
              Response := 100, Request := 200, index := 3,
              log := cW8.log ++ [3] } :=
  ⟨rfl, (decorator_replaces_objects mwW8 cW8 100 200 3 0 rfl (by decide)
    (by decide) rfl rfl).1⟩
